import Mathlib

/-!
Shallow embedding of the ds-macro input-automation engine
(`ds_macro/controller.py`, `ds_macro/models.py`, `ds_macro/exceptions.py`)
and proofs about its action execution, held-input tracking, routine
registry, cancellation, and emergency-stop procedures.

Python dictionaries are modelled as association lists, Python sets as
`Finset`, float values as real numbers, and the mutable controller object
as an explicit state record threaded through every operation.  A Python
method that may raise returns the post-state paired with an optional
raised error, matching the fact that in Python the mutations performed
before the raise survive it.  The external `xdotool` device process is
modelled by an oracle assigning each device call one of three outcomes:
success, rejection (`CalledProcessError`), or driver-unavailable
(`FileNotFoundError`).
-/

namespace DsMacro

/-- `MouseButton` enum from `models.py`. -/
inductive MouseButton where
  | left
  | right
  | middle
deriving DecidableEq, Repr

/-- Typed errors from `exceptions.py` that the controller can raise
(only the ones reachable from the modelled code paths). -/
inductive DSError where
  | xdotoolError
  | keyboardError
  | mouseMovementError
deriving DecidableEq, Repr

/-- Outcome of one call to the external `xdotool` process:
the process succeeds, rejects the command (`CalledProcessError`),
or is not installed (`FileNotFoundError`). -/
inductive DeviceOutcome where
  | ok
  | rejected
  | unavailable
deriving DecidableEq, Repr

/-- `DSController._execute_xdotool`: a rejected command surfaces as
`XdotoolError`; a missing driver is caught internally and the call
returns normally (simulation mode). -/
def executeXdotool (o : DeviceOutcome) : Option DSError :=
  match o with
  | .ok => none
  | .rejected => some .xdotoolError
  | .unavailable => none

/-- The action variants of `models.py`, tagged records of one pydantic
model each.  `press`/`release`/`mousePress`/`mouseRelease` inherit the
optional `duration` field (default `None`) from the `InputAction` base
model; `tap`/`wait`/`turn`/`mouseMove`/`mouseClick` have a required
`float` duration.  `unknown` stands for a base `InputAction` instance
whose `type` string matches no dispatch branch. -/
inductive InputAction where
  | press (key : String) (duration : Option ℝ)
  | release (key : String) (duration : Option ℝ)
  | tap (key : String) (duration : ℝ)
  | wait (duration : ℝ)
  | turn (degrees : ℝ) (duration : ℝ)
  | mouseMove (dx : ℝ) (dy : ℝ) (duration : ℝ)
  | mousePress (button : MouseButton) (duration : Option ℝ)
  | mouseRelease (button : MouseButton) (duration : Option ℝ)
  | mouseClick (button : MouseButton) (duration : ℝ)
  | unknown (ty : String) (duration : Option ℝ)

/-- The `type` discriminator string of an action (`action.type`). -/
def InputAction.ty : InputAction → String
  | .press _ _ => "press"
  | .release _ _ => "release"
  | .tap _ _ => "tap"
  | .wait _ => "wait"
  | .turn _ _ => "turn"
  | .mouseMove _ _ _ => "mouse_move"
  | .mousePress _ _ => "mouse_press"
  | .mouseRelease _ _ => "mouse_release"
  | .mouseClick _ _ => "mouse_click"
  | .unknown t _ => t

/-- The `duration` attribute of an action as Python sees it
(`None` or a float). -/
def InputAction.durationAttr : InputAction → Option ℝ
  | .press _ d => d
  | .release _ d => d
  | .tap _ d => some d
  | .wait d => some d
  | .turn _ d => some d
  | .mouseMove _ _ d => some d
  | .mousePress _ d => d
  | .mouseRelease _ d => d
  | .mouseClick _ d => some d
  | .unknown _ d => d

/-- Identity and immutable attributes of a `Routine` object
(`controller.py`).  `rid` is the monotonically assigned unique id, which
also serves as the object identity under which the registry's Python
sets store the routine. -/
structure RoutineData where
  rid : ℕ
  name : Option String
  categories : List String
deriving DecidableEq, Repr

/-- The registration key derived from `routine.name` by Python
truthiness: `if routine.name:` is false both for `None` and for the
empty string. -/
def RoutineData.nameKey (r : RoutineData) : Option String :=
  match r.name with
  | none => none
  | some n => if n = "" then none else some n

/-- Association-list lookup, modelling Python `dict` access. -/
def lookupA {K V : Type} [DecidableEq K] (k : K) : List (K × V) → Option V
  | [] => none
  | (k', v) :: rest => if k' = k then some v else lookupA k rest

/-- Association-list update, modelling Python `dict` assignment:
replaces the binding for `k` if present, otherwise appends it. -/
def insertA {K V : Type} [DecidableEq K] (k : K) (v : V) : List (K × V) → List (K × V)
  | [] => [(k, v)]
  | (k', v') :: rest => if k' = k then (k, v) :: rest else (k', v') :: insertA k v rest

/-- Association-list deletion, modelling Python `dict.pop(k, None)` /
`del d[k]`. -/
def eraseA {K V : Type} [DecidableEq K] (k : K) : List (K × V) → List (K × V)
  | [] => []
  | (k', v') :: rest => if k' = k then rest else (k', v') :: eraseA k rest

/-- The mutable state of a `DSController` instance: the held-input
sets, the tracked pointer position, the three routine-registry indices,
and the heap of per-routine cancellation flags (`routine._cancelled`),
represented as the set of routine ids whose flag is `True`. -/
structure ControllerState where
  pressedKeys : Finset String
  pressedMouseButtons : Finset MouseButton
  currentX : ℤ
  currentY : ℤ
  idToRoutine : List (ℕ × RoutineData)
  nameToRoutines : List (String × Finset RoutineData)
  routineRegistry : List (String × Finset RoutineData)
  cancelledSet : Finset ℕ
deriving DecidableEq

/-- `Routine.cancel()` restricted to its state effect: set the
routine's cancellation flag. -/
def cancelRid (rid : ℕ) (s : ControllerState) : ControllerState :=
  { s with cancelledSet := insert rid s.cancelledSet }

/-- The shared add-to-a-set-valued-index step of
`_register_routine`: `if key not in index: index[key] = set()` then
`index[key].add(routine)`. -/
def addToIndex (r : RoutineData) (m : List (String × Finset RoutineData)) (k : String) :
    List (String × Finset RoutineData) :=
  match lookupA k m with
  | none => insertA k {r} m
  | some rs => insertA k (insert r rs) m

/-- The shared remove-from-a-set-valued-index step of
`_unregister_routine`: `if key in index: index[key].discard(routine)`
then `if not index[key]: del index[key]`. -/
def removeFromIndex (r : RoutineData) (m : List (String × Finset RoutineData))
    (k : String) : List (String × Finset RoutineData) :=
  match lookupA k m with
  | none => m
  | some rs =>
    let rs' := rs.erase r
    if rs' = ∅ then eraseA k m else insertA k rs' m

/-- `DSController._register_routine`: store the routine under its id,
add it to its name's set when the name is truthy (creating the entry if
absent), and add it to the set of each of its categories. -/
def registerRoutine (r : RoutineData) (s : ControllerState) : ControllerState :=
  let idx := insertA r.rid r s.idToRoutine
  let names :=
    match r.nameKey with
    | none => s.nameToRoutines
    | some n => addToIndex r s.nameToRoutines n
  let cats := r.categories.foldl (addToIndex r) s.routineRegistry
  { s with idToRoutine := idx, nameToRoutines := names, routineRegistry := cats }

/-- `DSController._unregister_routine`: pop the id entry, discard the
routine from its name's set (deleting the entry when it empties), and
discard it from each of its categories' sets likewise. -/
def unregisterRoutine (r : RoutineData) (s : ControllerState) : ControllerState :=
  let idx := eraseA r.rid s.idToRoutine
  let names :=
    match r.nameKey with
    | none => s.nameToRoutines
    | some n => removeFromIndex r s.nameToRoutines n
  let cats := r.categories.foldl (removeFromIndex r) s.routineRegistry
  { s with idToRoutine := idx, nameToRoutines := names, routineRegistry := cats }

/-- `DSController.cancel_by_id`: cancel the routine stored under the
id if one exists, reporting whether one was found. -/
def cancelById (rid : ℕ) (s : ControllerState) : Bool × ControllerState :=
  match lookupA rid s.idToRoutine with
  | some r => (true, cancelRid r.rid s)
  | none => (false, s)

/-- Cumulative effect of the loop `for routine in list(rs): routine.cancel()`:
each iteration inserts that routine's id into the cancellation-flag set,
so the loop as a whole unions in the image of the set under `rid`
(insertion order cannot matter for a set union). -/
def cancelEach (rs : Finset RoutineData) (s : ControllerState) : ControllerState :=
  { s with cancelledSet := s.cancelledSet ∪ rs.image RoutineData.rid }

/-- `DSController.cancel_by_name`: cancel every routine in the name's
set if the name is registered, reporting whether it was. -/
def cancelByName (n : String) (s : ControllerState) : Bool × ControllerState :=
  match lookupA n s.nameToRoutines with
  | none => (false, s)
  | some rs => (true, cancelEach rs s)

/-- `DSController.cancel_category`: cancel every routine in the
category's set if the category is registered, reporting whether it was. -/
def cancelCategory (c : String) (s : ControllerState) : Bool × ControllerState :=
  match lookupA c s.routineRegistry with
  | none => (false, s)
  | some rs => (true, cancelEach rs s)

/-- `MouseConfig` from `models.py` (`pixels_per_degree`,
`steps_per_second`). The pydantic `gt=0` bounds are constraints on
construction, stated as hypotheses where theorems need them. -/
structure MouseConfig where
  pixelsPerDegree : ℝ
  stepsPerSecond : ℕ

/-- `ControllerConfig` from `models.py`, restricted to the parts the
modelled code paths read: the mouse parameters and the
button-to-number table (total over the closed `MouseButton` enum, as
in the default config). The key-mapping table only renames the string
sent to the device and never affects controller state, so it is not
modelled. -/
structure ControllerConfig where
  mouse : MouseConfig
  mouseButtons : MouseButton → ℕ

/-- Python `int()` applied to a float: truncation toward zero. -/
noncomputable def pyInt (x : ℝ) : ℤ :=
  if 0 ≤ x then ⌊x⌋ else ⌈x⌉

/-- `DSController._execute_key_press`: issue `keydown`; on rejection
raise `KeyboardError` with no state change; otherwise (success, or
driver unavailable and simulated) add the key to the held-key set. -/
def executeKeyPress (o : DeviceOutcome) (key : String) (s : ControllerState) :
    ControllerState × Option DSError :=
  match executeXdotool o with
  | some _ => (s, some .keyboardError)
  | none => ({ s with pressedKeys := insert key s.pressedKeys }, none)

/-- `DSController._execute_key_release`: issue `keyup`; on rejection
raise `KeyboardError` with no state change; otherwise remove the key
from the held-key set. -/
def executeKeyRelease (o : DeviceOutcome) (key : String) (s : ControllerState) :
    ControllerState × Option DSError :=
  match executeXdotool o with
  | some _ => (s, some .keyboardError)
  | none => ({ s with pressedKeys := s.pressedKeys.erase key }, none)

/-- `DSController._execute_mouse_press`. -/
def executeMousePress (o : DeviceOutcome) (b : MouseButton) (s : ControllerState) :
    ControllerState × Option DSError :=
  match executeXdotool o with
  | some _ => (s, some .mouseMovementError)
  | none => ({ s with pressedMouseButtons := insert b s.pressedMouseButtons }, none)

/-- `DSController._execute_mouse_release`. -/
def executeMouseRelease (o : DeviceOutcome) (b : MouseButton) (s : ControllerState) :
    ControllerState × Option DSError :=
  match executeXdotool o with
  | some _ => (s, some .mouseMovementError)
  | none => ({ s with pressedMouseButtons := s.pressedMouseButtons.erase b }, none)

/-- `DSController._execute_mouse_move`: truncate the deltas to ints,
issue the relative move; on rejection raise `MouseMovementError` with
no position change; otherwise update the tracked position. -/
noncomputable def executeMouseMove (o : DeviceOutcome) (dx dy : ℝ) (s : ControllerState) :
    ControllerState × Option DSError :=
  match executeXdotool o with
  | some _ => (s, some .mouseMovementError)
  | none =>
    ({ s with currentX := s.currentX + pyInt dx, currentY := s.currentY + pyInt dy }, none)

/-- `DSController._execute_key_tap`: `keydown`, add to held set, sleep
`duration`, `keyup`, remove from held set; a rejected `keydown` raises
before any state change or sleep; a rejected `keyup` raises after the
sleep with the key still recorded as held.  The third component is the
total time spent in `asyncio.sleep` inside the handler. -/
def executeKeyTap (o : ℕ → DeviceOutcome) (key : String) (d : ℝ) (s : ControllerState) :
    ControllerState × Option DSError × ℝ :=
  match executeXdotool (o 0) with
  | some _ => (s, some .keyboardError, 0)
  | none =>
    let s1 := { s with pressedKeys := insert key s.pressedKeys }
    match executeXdotool (o 1) with
    | some _ => (s1, some .keyboardError, d)
    | none => ({ s1 with pressedKeys := s1.pressedKeys.erase key }, none, d)

/-- `DSController._execute_mouse_click`: `mousedown`, add to held set,
sleep `duration`, `mouseup`, remove from held set, with the same error
shape as `executeKeyTap`. -/
def executeMouseClick (o : ℕ → DeviceOutcome) (b : MouseButton) (d : ℝ) (s : ControllerState) :
    ControllerState × Option DSError × ℝ :=
  match executeXdotool (o 0) with
  | some _ => (s, some .mouseMovementError, 0)
  | none =>
    let s1 := { s with pressedMouseButtons := insert b s.pressedMouseButtons }
    match executeXdotool (o 1) with
    | some _ => (s1, some .mouseMovementError, d)
    | none => ({ s1 with pressedMouseButtons := s1.pressedMouseButtons.erase b }, none, d)

/-- `total_steps = int(duration * steps)` in `_execute_turn`;
`range(total_steps)` is empty for a non-positive result, which `toNat`
reproduces. -/
noncomputable def turnSteps (cfg : ControllerConfig) (duration : ℝ) : ℕ :=
  (pyInt (duration * cfg.mouse.stepsPerSecond)).toNat

/-- Step `i`'s pixel delta in `_execute_turn`:
`(total_pixels / total_steps) * sin((i / total_steps) * pi)`. -/
noncomputable def turnDelta (totalPixels : ℝ) (totalSteps : ℕ) (i : ℕ) : ℝ :=
  (totalPixels / totalSteps) * Real.sin (((i : ℝ) / totalSteps) * Real.pi)

/-- The loop body of `_execute_turn` over the remaining step indices:
move the pointer by step `i`'s (truncated) delta, then sleep
`duration / total_steps`; a rejected move aborts the loop, skipping
that iteration's sleep. -/
noncomputable def turnLoop (o : ℕ → DeviceOutcome) (totalPixels : ℝ) (totalSteps : ℕ)
    (duration : ℝ) : List ℕ → ControllerState → ControllerState × Option DSError × ℝ
  | [], s => (s, none, 0)
  | i :: rest, s =>
    match executeMouseMove (o i) (turnDelta totalPixels totalSteps i) 0 s with
    | (s', some e) => (s', some e, 0)
    | (s', none) =>
      let r := turnLoop o totalPixels totalSteps duration rest s'
      (r.1, r.2.1, duration / totalSteps + r.2.2)

/-- `DSController._execute_turn`: compute `total_pixels` and
`total_steps`, then run the step loop over `range(total_steps)`. -/
noncomputable def executeTurn (cfg : ControllerConfig) (o : ℕ → DeviceOutcome)
    (degrees duration : ℝ) (s : ControllerState) : ControllerState × Option DSError × ℝ :=
  let totalPixels := degrees * cfg.mouse.pixelsPerDegree
  let ts := turnSteps cfg duration
  turnLoop o totalPixels ts duration (List.range ts) s

/-- Lift a sleep-free primitive result into the dispatch result shape. -/
def noSleep (p : ControllerState × Option DSError) : ControllerState × Option DSError × ℝ :=
  (p.1, p.2, 0)

/-- The `elif` dispatch chain of `DSController._execute_action` on
`action.type`; the oracle `o` numbers the device calls an action makes.
An unmatched `type` string only logs a warning and falls through with
no state change and no error. -/
noncomputable def dispatch (cfg : ControllerConfig) (o : ℕ → DeviceOutcome)
    (a : InputAction) (s : ControllerState) : ControllerState × Option DSError × ℝ :=
  match a with
  | .press k _ => noSleep (executeKeyPress (o 0) k s)
  | .release k _ => noSleep (executeKeyRelease (o 0) k s)
  | .tap k d => executeKeyTap o k d s
  | .wait d => (s, none, d)
  | .turn deg dur => executeTurn cfg o deg dur s
  | .mouseMove dx dy _ => noSleep (executeMouseMove (o 0) dx dy s)
  | .mousePress b _ => noSleep (executeMousePress (o 0) b s)
  | .mouseRelease b _ => noSleep (executeMouseRelease (o 0) b s)
  | .mouseClick b d => executeMouseClick o b d s
  | .unknown _ _ => (s, none, 0)

/-- `DSController._execute_action`: dispatch, then the uniform trailing
hold — if the dispatch did not raise and the action carries a truthy
`duration` (not `None`, not `0.0`) and is not itself a `wait`, sleep an
additional `duration` before returning. -/
noncomputable def executeAction (cfg : ControllerConfig) (o : ℕ → DeviceOutcome)
    (a : InputAction) (s : ControllerState) : ControllerState × Option DSError × ℝ :=
  let r := dispatch cfg o a s
  match r.2.1 with
  | some e => (r.1, some e, r.2.2)
  | none =>
    match a.durationAttr with
    | none => (r.1, none, r.2.2)
    | some d =>
      if d = 0 then (r.1, none, r.2.2)
      else if a.ty = "wait" then (r.1, none, r.2.2)
      else (r.1, none, r.2.2 + d)

/-- `DSController._release_key_safely`: run the plain release; if it
raised `KeyboardError`, additionally discard the key from the held set
and re-raise. -/
def releaseKeySafely (o : DeviceOutcome) (key : String) (s : ControllerState) :
    ControllerState × Option DSError :=
  match executeKeyRelease o key s with
  | (s', none) => (s', none)
  | (s', some .keyboardError) =>
    ({ s' with pressedKeys := s'.pressedKeys.erase key }, some .keyboardError)
  | (s', some e) => (s', some e)

/-- `DSController._release_mouse_safely`. -/
def releaseMouseSafely (o : DeviceOutcome) (b : MouseButton) (s : ControllerState) :
    ControllerState × Option DSError :=
  match executeMouseRelease o b s with
  | (s', none) => (s', none)
  | (s', some .mouseMovementError) =>
    ({ s' with pressedMouseButtons := s'.pressedMouseButtons.erase b }, some .mouseMovementError)
  | (s', some e) => (s', some e)

/-- One iteration of the key loop in `emergency_stop`: try the safe
release and, should any exception escape it, catch it and discard the
key anyway ("make sure state is updated even if command fails"). -/
def emergencyReleaseKey (o : DeviceOutcome) (key : String) (s : ControllerState) :
    ControllerState :=
  match releaseKeySafely o key s with
  | (s', none) => s'
  | (s', some _) => { s' with pressedKeys := s'.pressedKeys.erase key }

/-- One iteration of the mouse-button loop in `emergency_stop`. -/
def emergencyReleaseMouse (o : DeviceOutcome) (b : MouseButton) (s : ControllerState) :
    ControllerState :=
  match releaseMouseSafely o b s with
  | (s', none) => s'
  | (s', some _) => { s' with pressedMouseButtons := s'.pressedMouseButtons.erase b }

/-- The canonical enumeration of the `MouseButton` enum. -/
def allButtons : List MouseButton := [.left, .right, .middle]

/-- First phase of `emergency_stop`: the loop
`for routine in list(self._id_to_routine.values()): routine.cancel()`,
whose cumulative effect is to insert every registered id into the
cancellation-flag set. -/
def cancelAllRoutines (s : ControllerState) : ControllerState :=
  { s with
    cancelledSet := s.cancelledSet ∪
      (s.idToRoutine.map (fun (p : ℕ × RoutineData) => p.2.rid)).toFinset }

/-- Second phase of `emergency_stop`: iterate over a snapshot of the
held-key set (`list(self.pressed_keys)`; a canonical order — Python's
set order is arbitrary and no modelled effect depends on it), releasing
each key with the per-iteration catch-all. -/
noncomputable def releaseAllKeys (okey : String → DeviceOutcome) (s : ControllerState) :
    ControllerState :=
  (s.pressedKeys.sort (· ≤ ·)).foldl (fun st k => emergencyReleaseKey (okey k) k st) s

/-- Third phase of `emergency_stop`: the same over a snapshot of the
held-mouse-button set. -/
def releaseAllMouse (obtn : MouseButton → DeviceOutcome) (s : ControllerState) :
    ControllerState :=
  (allButtons.filter (· ∈ s.pressedMouseButtons)).foldl
    (fun st b => emergencyReleaseMouse (obtn b) b st) s

/-- `DSController.emergency_stop`: cancel every registered routine,
then drain held keys, then held mouse buttons; every device
interaction is guarded so the procedure itself cannot raise. -/
noncomputable def emergencyStop (okey : String → DeviceOutcome)
    (obtn : MouseButton → DeviceOutcome) (s : ControllerState) : ControllerState :=
  releaseAllMouse obtn (releaseAllKeys okey (cancelAllRoutines s))

/-- One `execute_sequence` call abstracted as a state transformer that
may raise: during the `await` other tasks may arbitrarily mutate the
shared controller state (press keys, register or cancel routines). -/
def SeqExec : Type := ControllerState → ControllerState × Option DSError

/-- The `for` loop of `Routine.run`: before each sequence check the
cancellation flag and break if set; execute the sequence; a raised
error propagates, aborting the loop.  Returns the final state, how
many sequences were started, and the propagated error if any. -/
def runLoop (rid : ℕ) : List SeqExec → ControllerState → ControllerState × ℕ × Option DSError
  | [], s => (s, 0, none)
  | f :: fs, s =>
    if rid ∈ s.cancelledSet then (s, 0, none)
    else
      match f s with
      | (s', some e) => (s', 1, some e)
      | (s', none) =>
        let r := runLoop rid fs s'
        (r.1, r.2.1 + 1, r.2.2)

/-- `Routine.run`: register the routine, run the sequence loop inside
`try`, and unregister in `finally` — on normal completion, on
cancellation, and on a propagated error alike. -/
def runRoutine (r : RoutineData) (seqs : List SeqExec) (s : ControllerState) :
    ControllerState × ℕ × Option DSError :=
  let s0 := registerRoutine r s
  let res := runLoop r.rid seqs s0
  (unregisterRoutine r res.1, res.2.1, res.2.2)

/-- Sequential composition of sequence executions, ignoring errors:
used to state which prefix of the sequence list `runLoop` applied. -/
def applySeqs : List SeqExec → ControllerState → ControllerState
  | [], s => s
  | f :: fs, s => applySeqs fs (f s).1

/-- An untyped field record submitted to pydantic validation: each
field either absent or already of the declared type (pydantic rejects
values of the wrong type; that check is prior to what is modelled here). -/
structure RawAction where
  key : Option String
  button : Option String
  duration : Option ℝ
  degrees : Option ℝ
  dx : Option ℝ
  dy : Option ℝ

/-- Pydantic coercion of a string into the `MouseButton` enum:
only the three member values are accepted. -/
def parseButton (b : String) : Option MouseButton :=
  if b = "left" then some .left
  else if b = "right" then some .right
  else if b = "middle" then some .middle
  else none

/-- Validation of `KeyPress` (`models.py`): `key` is a required `str`
— any string, empty included; `duration` stays optional with default
`None`. -/
def validateKeyPress (r : RawAction) : Option InputAction :=
  match r.key with
  | none => none
  | some k => some (.press k r.duration)

/-- Validation of `KeyRelease`. -/
def validateKeyRelease (r : RawAction) : Option InputAction :=
  match r.key with
  | none => none
  | some k => some (.release k r.duration)

/-- Validation of `KeyTap`: required `key`, `duration` defaults to
`0.1` and is an unconstrained float. -/
def validateKeyTap (r : RawAction) : Option InputAction :=
  match r.key with
  | none => none
  | some k => some (.tap k (r.duration.getD 0.1))

/-- Validation of `Wait`: `duration` is a required, unconstrained float. -/
def validateWait (r : RawAction) : Option InputAction :=
  match r.duration with
  | none => none
  | some d => some (.wait d)

/-- Validation of `Turn`: `degrees` is a required float, `duration`
defaults to `1.0`; neither carries a bound. -/
def validateTurn (r : RawAction) : Option InputAction :=
  match r.degrees with
  | none => none
  | some deg => some (.turn deg (r.duration.getD 1))

/-- Validation of `MouseMove`: required `dx` and `dy`, `duration`
defaults to `0.1`. -/
def validateMouseMove (r : RawAction) : Option InputAction :=
  match r.dx, r.dy with
  | some dx, some dy => some (.mouseMove dx dy (r.duration.getD 0.1))
  | _, _ => none

/-- Validation of `MousePress`: `button` must coerce into the enum. -/
def validateMousePress (r : RawAction) : Option InputAction :=
  match r.button with
  | none => none
  | some b =>
    match parseButton b with
    | none => none
    | some btn => some (.mousePress btn r.duration)

/-- Validation of `MouseRelease`. -/
def validateMouseRelease (r : RawAction) : Option InputAction :=
  match r.button with
  | none => none
  | some b =>
    match parseButton b with
    | none => none
    | some btn => some (.mouseRelease btn r.duration)

/-- Validation of `MouseClick`: enum button, `duration` defaults to
`0.1`, unconstrained. -/
def validateMouseClick (r : RawAction) : Option InputAction :=
  match r.button with
  | none => none
  | some b =>
    match parseButton b with
    | none => none
    | some btn => some (.mouseClick btn (r.duration.getD 0.1))

/-! ### Shared concrete instances used by witnesses and counterexamples -/

/-- The default `ControllerConfig` of `models.py`: `pixels_per_degree
= 32.5`, `steps_per_second = 60`, buttons left/right/middle mapped to
1/3/2. -/
noncomputable def cfgEx : ControllerConfig :=
  ⟨⟨32.5, 60⟩, fun b => match b with | .left => 1 | .right => 3 | .middle => 2⟩

/-- A freshly initialized controller state: nothing held, position
(0, 0), empty registry. -/
def stEmpty : ControllerState := ⟨∅, ∅, 0, 0, [], [], [], ∅⟩

/-- A controller state holding the single key `w`. -/
def stW : ControllerState := { stEmpty with pressedKeys := {"w"} }

/-- A device that accepts every command. -/
def oracleOk : ℕ → DeviceOutcome := fun _ => .ok

/-- A device that rejects every command. -/
def oracleRejected : ℕ → DeviceOutcome := fun _ => .rejected

/-- A raw pydantic submission with every field absent. -/
def rawNone : RawAction := ⟨none, none, none, none, none, none⟩

lemma executeXdotool_eq_none (o : DeviceOutcome) (h : o ≠ .rejected) :
    executeXdotool o = none := by
  cases o with
  | ok => rfl
  | rejected => exact absurd rfl h
  | unavailable => rfl

/-! ### C3: press / release device semantics outside emergency stop -/

/-- C3: for a press or release key action executed through the regular
dispatch: when the device accepts the call, the held-key set is updated
(press inserts, release erases) and no error is raised; when the device
rejects the call, a `KeyboardError` is raised and the controller state is
left exactly as it was. -/
theorem press_release_device_semantics (cfg : ControllerConfig) (k : String)
    (d : Option ℝ) (s : ControllerState) (o₁ o₂ : ℕ → DeviceOutcome)
    (h₁ : o₁ 0 = .ok) (h₂ : o₂ 0 = .rejected) :
    dispatch cfg o₁ (.press k d) s =
      ({ s with pressedKeys := insert k s.pressedKeys }, none, 0) ∧
    dispatch cfg o₁ (.release k d) s =
      ({ s with pressedKeys := s.pressedKeys.erase k }, none, 0) ∧
    dispatch cfg o₂ (.press k d) s = (s, some .keyboardError, 0) ∧
    dispatch cfg o₂ (.release k d) s = (s, some .keyboardError, 0) := by
  refine ⟨?_, ?_, ?_, ?_⟩ <;>
    simp [dispatch, noSleep, executeKeyPress, executeKeyRelease, executeXdotool, h₁, h₂]

/-- Witness for C3 at the default config, key `w`, the empty state,
and the constant-outcome devices. -/
theorem press_release_device_semantics_witness :
    dispatch cfgEx oracleOk (.press "w" none) stEmpty =
      ({ stEmpty with pressedKeys := insert "w" stEmpty.pressedKeys }, none, 0) ∧
    dispatch cfgEx oracleOk (.release "w" none) stEmpty =
      ({ stEmpty with pressedKeys := stEmpty.pressedKeys.erase "w" }, none, 0) ∧
    dispatch cfgEx oracleRejected (.press "w" none) stEmpty =
      (stEmpty, some .keyboardError, 0) ∧
    dispatch cfgEx oracleRejected (.release "w" none) stEmpty =
      (stEmpty, some .keyboardError, 0) :=
  press_release_device_semantics cfgEx "w" none stEmpty oracleOk oracleRejected rfl rfl

/-! ### C4: does every executed release remove the key regardless of
device outcome? -/

/-- C4 counterexample: with `w` held and a device that rejects the
`keyup`, the plain release of `w` raises `KeyboardError` and leaves `w`
in the held-key set — so an executed release does *not* remove the key
independent of device outcome. -/
theorem release_on_rejection_keeps_key :
    (dispatch cfgEx oracleRejected (.release "w" none) stW).1.pressedKeys = {"w"} ∧
    (dispatch cfgEx oracleRejected (.release "w" none) stW).2.1 = some .keyboardError := by
  constructor <;>
    simp [dispatch, noSleep, executeKeyRelease, executeXdotool, oracleRejected, stW]

/-- C4 amended: every press or release whose device call is not
rejected (success, or driver unavailable) updates the held-key set;
on device rejection the plain press and release leave the held-key set
unchanged and raise; and the emergency-stop release variant
(`_release_key_safely`) removes the key from the held-key set under
every device outcome, which is what prevents a stuck-pressed belief. -/
theorem press_release_state_update_semantics (cfg : ControllerConfig) (k : String)
    (d : Option ℝ) (s : ControllerState) (o : ℕ → DeviceOutcome) :
    (o 0 ≠ .rejected →
      (dispatch cfg o (.press k d) s).1.pressedKeys = insert k s.pressedKeys ∧
      (dispatch cfg o (.release k d) s).1.pressedKeys = s.pressedKeys.erase k) ∧
    (o 0 = .rejected →
      (dispatch cfg o (.press k d) s).1.pressedKeys = s.pressedKeys ∧
      (dispatch cfg o (.release k d) s).1.pressedKeys = s.pressedKeys) ∧
    (∀ o' : DeviceOutcome, (releaseKeySafely o' k s).1.pressedKeys = s.pressedKeys.erase k) := by
  refine ⟨fun h => ?_, fun h => ?_, fun o' => ?_⟩
  · constructor <;>
      simp [dispatch, noSleep, executeKeyPress, executeKeyRelease,
        executeXdotool_eq_none (o 0) h]
  · constructor <;> simp [dispatch, noSleep, executeKeyPress, executeKeyRelease, h,
      executeXdotool]
  · cases o' <;>
      simp [releaseKeySafely, executeKeyRelease, executeXdotool, Finset.erase_idem]

/-- Witness for the amended C4 at key `w`, the state holding only `w`,
and the always-accepting device. -/
theorem press_release_state_update_semantics_witness :
    (oracleOk 0 ≠ .rejected →
      (dispatch cfgEx oracleOk (.press "w" none) stW).1.pressedKeys =
        insert "w" stW.pressedKeys ∧
      (dispatch cfgEx oracleOk (.release "w" none) stW).1.pressedKeys =
        stW.pressedKeys.erase "w") ∧
    (oracleOk 0 = .rejected →
      (dispatch cfgEx oracleOk (.press "w" none) stW).1.pressedKeys = stW.pressedKeys ∧
      (dispatch cfgEx oracleOk (.release "w" none) stW).1.pressedKeys = stW.pressedKeys) ∧
    (∀ o' : DeviceOutcome,
      (releaseKeySafely o' "w" stW).1.pressedKeys = stW.pressedKeys.erase "w") :=
  press_release_state_update_semantics cfgEx "w" none stW oracleOk

/-! ### C10: tap and click suspend for twice their duration -/

/-- C10: a tap or mouse-click with positive duration `d` whose two
device calls are not rejected suspends for `d` inside the handler
(between the down call and the up call) and then once more in the
uniform trailing hold of `_execute_action`, which exempts only `wait`
actions — a total suspension of `2 * d`. -/
theorem tap_click_double_suspension (cfg : ControllerConfig) (k : String)
    (b : MouseButton) (d : ℝ) (s : ControllerState) (o : ℕ → DeviceOutcome)
    (hd : 0 < d) (h0 : o 0 ≠ .rejected) (h1 : o 1 ≠ .rejected) :
    (dispatch cfg o (.tap k d) s).2.2 = d ∧
    (executeAction cfg o (.tap k d) s).2.2 = 2 * d ∧
    (dispatch cfg o (.mouseClick b d) s).2.2 = d ∧
    (executeAction cfg o (.mouseClick b d) s).2.2 = 2 * d ∧
    (executeAction cfg o (.wait d) s).2.2 = d := by
  have e0 := executeXdotool_eq_none (o 0) h0
  have e1 := executeXdotool_eq_none (o 1) h1
  have hne : d ≠ 0 := ne_of_gt hd
  refine ⟨?_, ?_, ?_, ?_, ?_⟩ <;>
    simp [executeAction, dispatch, executeKeyTap, executeMouseClick,
      InputAction.durationAttr, InputAction.ty, e0, e1, hne] <;> ring

/-- Witness for C10 at duration `1`, key `w`, the left button, and the
always-accepting device. -/
theorem tap_click_double_suspension_witness :
    (0 : ℝ) < 1 ∧
    ((dispatch cfgEx oracleOk (.tap "w" 1) stEmpty).2.2 = 1 ∧
     (executeAction cfgEx oracleOk (.tap "w" 1) stEmpty).2.2 = 2 * 1 ∧
     (dispatch cfgEx oracleOk (.mouseClick .left 1) stEmpty).2.2 = 1 ∧
     (executeAction cfgEx oracleOk (.mouseClick .left 1) stEmpty).2.2 = 2 * 1 ∧
     (executeAction cfgEx oracleOk (.wait 1) stEmpty).2.2 = 1) :=
  ⟨one_pos,
    tap_click_double_suspension cfgEx "w" .left 1 stEmpty oracleOk one_pos
      (by simp [oracleOk]) (by simp [oracleOk])⟩

/-! ### C5: what action validation actually enforces -/

/-- C5 counterexample: validation accepts a `KeyPress` whose key is the
empty string and a `Wait` whose duration is negative, and the dispatch
of an action with the unrecognized kind `"fly"` is not rejected — it
returns with no error and no state change (a logged warning only). -/
theorem validation_gaps :
    validateKeyPress ⟨some "", none, none, none, none, none⟩ = some (.press "" none) ∧
    validateWait ⟨none, none, some (-5), none, none, none⟩ = some (.wait (-5)) ∧
    executeAction cfgEx oracleOk (.unknown "fly" none) stEmpty = (stEmpty, none, 0) := by
  refine ⟨rfl, rfl, ?_⟩
  simp [executeAction, dispatch, InputAction.durationAttr]

/-- C5 amended: pydantic validation enforces field presence and typing
only — key actions require a key that may be empty, mouse actions
require one of the three recognized button enumerators, wait requires
a real duration and turn a real degrees value with no sign constraint
(negative durations are accepted) — and an action with an unrecognized
kind is not rejected: dispatch skips it, leaving the state unchanged
with no error. -/
theorem validation_semantics (r : RawAction) :
    ((validateKeyPress r).isSome ↔ r.key.isSome) ∧
    ((validateMousePress r).isSome ↔ ∃ b, r.button = some b ∧ (parseButton b).isSome) ∧
    ((validateWait r).isSome ↔ r.duration.isSome) ∧
    ((validateTurn r).isSome ↔ r.degrees.isSome) ∧
    (∀ (cfg : ControllerConfig) (o : ℕ → DeviceOutcome) (ty : String)
      (s : ControllerState), dispatch cfg o (.unknown ty none) s = (s, none, 0)) := by
  refine ⟨?_, ?_, ?_, ?_, fun cfg o ty s => rfl⟩
  · cases hk : r.key <;> simp [validateKeyPress, hk]
  · cases hb : r.button with
    | none => simp [validateMousePress, hb]
    | some b => cases hp : parseButton b <;> simp [validateMousePress, hb, hp]
  · cases hd : r.duration <;> simp [validateWait, hd]
  · cases hg : r.degrees <;> simp [validateTurn, hg]

/-- Witness for the amended C5 at the all-absent raw record. -/
theorem validation_semantics_witness :
    ((validateKeyPress rawNone).isSome ↔ rawNone.key.isSome) ∧
    ((validateMousePress rawNone).isSome ↔
      ∃ b, rawNone.button = some b ∧ (parseButton b).isSome) ∧
    ((validateWait rawNone).isSome ↔ rawNone.duration.isSome) ∧
    ((validateTurn rawNone).isSome ↔ rawNone.degrees.isSome) ∧
    (∀ (cfg : ControllerConfig) (o : ℕ → DeviceOutcome) (ty : String)
      (s : ControllerState), dispatch cfg o (.unknown ty none) s = (s, none, 0)) :=
  validation_semantics rawNone

/-! ### C6: turn step count and zero-duration turns -/

/-- C6 counterexample: a turn with `duration = 0` is accepted by
validation, resolves to `0` steps rather than at least `1`, and
executes as a no-op (no error, no state change, no suspension) instead
of being rejected as invalid input. -/
theorem zero_duration_turn_is_noop :
    validateTurn ⟨none, none, some 0, some 90, none, none⟩ = some (.turn 90 0) ∧
    turnSteps cfgEx 0 = 0 ∧
    dispatch cfgEx oracleOk (.turn 90 0) stEmpty = (stEmpty, none, 0) := by
  have hsteps : turnSteps cfgEx 0 = 0 := by
    simp [turnSteps, pyInt, cfgEx]
  refine ⟨rfl, hsteps, ?_⟩
  simp [dispatch, executeTurn, hsteps, turnLoop]

/-- C6 amended: the step count is `int(duration × steps_per_second)`,
which for nonnegative durations is the claimed floor; but no minimum
of `1` is enforced and a zero duration is not rejected — it yields `0`
steps and the turn completes as a no-op. -/
theorem turn_step_count (cfg : ControllerConfig) (dur : ℝ) (hdur : 0 ≤ dur) :
    turnSteps cfg dur = (⌊dur * (cfg.mouse.stepsPerSecond : ℝ)⌋).toNat ∧
    turnSteps cfg 0 = 0 ∧
    (∀ (o : ℕ → DeviceOutcome) (deg : ℝ) (s : ControllerState),
      dispatch cfg o (.turn deg 0) s = (s, none, 0)) := by
  have hz : turnSteps cfg 0 = 0 := by simp [turnSteps, pyInt]
  refine ⟨?_, hz, fun o deg s => ?_⟩
  · have hnn : (0 : ℝ) ≤ dur * (cfg.mouse.stepsPerSecond : ℝ) :=
      mul_nonneg hdur (Nat.cast_nonneg _)
    simp [turnSteps, pyInt, hnn]
  · simp [dispatch, executeTurn, hz, turnLoop]

/-- Witness for the amended C6 at the default config and duration `1`. -/
theorem turn_step_count_witness :
    (0 : ℝ) ≤ 1 ∧
    (turnSteps cfgEx 1 = (⌊(1 : ℝ) * (cfgEx.mouse.stepsPerSecond : ℝ)⌋).toNat ∧
     turnSteps cfgEx 0 = 0 ∧
     (∀ (o : ℕ → DeviceOutcome) (deg : ℝ) (s : ControllerState),
       dispatch cfgEx o (.turn deg 0) s = (s, none, 0))) :=
  ⟨zero_le_one, turn_step_count cfgEx 1 zero_le_one⟩

/-! ### Association-list lemmas -/

/-- A Python `dict` cannot bind the same key twice; association lists
reaching the registry theorems carry this shape assumption. -/
def NodupKeys {K V : Type} (l : List (K × V)) : Prop := (l.map Prod.fst).Nodup

lemma lookupA_insertA_self {K V : Type} [DecidableEq K] (k : K) (v : V)
    (l : List (K × V)) : lookupA k (insertA k v l) = some v := by
  induction l with
  | nil => simp [insertA, lookupA]
  | cons p rest ih =>
    obtain ⟨k', v'⟩ := p
    by_cases h : k' = k <;> simp [insertA, lookupA, h, ih]

lemma lookupA_insertA_ne {K V : Type} [DecidableEq K] {k k' : K} (v : V)
    (l : List (K × V)) (h : k' ≠ k) : lookupA k' (insertA k v l) = lookupA k' l := by
  have h' : k ≠ k' := Ne.symm h
  induction l with
  | nil => simp [insertA, lookupA, h']
  | cons p rest ih =>
    obtain ⟨k'', v'⟩ := p
    by_cases hk : k'' = k
    · subst hk
      simp [insertA, lookupA, h']
    · simp [insertA, lookupA, hk, ih]

lemma lookupA_eraseA_ne {K V : Type} [DecidableEq K] {k k' : K}
    (l : List (K × V)) (h : k' ≠ k) : lookupA k' (eraseA k l) = lookupA k' l := by
  have h' : k ≠ k' := Ne.symm h
  induction l with
  | nil => simp [eraseA]
  | cons p rest ih =>
    obtain ⟨k'', v'⟩ := p
    by_cases hk : k'' = k
    · subst hk
      simp [eraseA, lookupA, h']
    · simp [eraseA, lookupA, hk, ih]

lemma mem_keys_of_lookupA {K V : Type} [DecidableEq K] {k : K} {v : V}
    {l : List (K × V)} (h : lookupA k l = some v) : k ∈ l.map Prod.fst := by
  induction l with
  | nil => simp [lookupA] at h
  | cons p rest ih =>
    obtain ⟨k', v'⟩ := p
    by_cases hk : k' = k
    · simp [hk]
    · simp [lookupA, hk] at h
      simp [ih h]

lemma lookupA_eraseA_self {K V : Type} [DecidableEq K] (k : K)
    (l : List (K × V)) (h : NodupKeys l) : lookupA k (eraseA k l) = none := by
  induction l with
  | nil => simp [eraseA, lookupA]
  | cons p rest ih =>
    obtain ⟨k', v'⟩ := p
    simp only [NodupKeys, List.map_cons, List.nodup_cons] at h
    by_cases hk : k' = k
    · subst hk
      simp only [eraseA, if_pos rfl]
      cases hl : lookupA k' rest with
      | none => exact hl
      | some v'' => exact absurd (mem_keys_of_lookupA hl) h.1
    · simp [eraseA, lookupA, hk, ih h.2]

lemma mem_keys_insertA {K V : Type} [DecidableEq K] {k k'' : K} (v : V)
    (l : List (K × V)) :
    k'' ∈ (insertA k v l).map Prod.fst ↔ k'' = k ∨ k'' ∈ l.map Prod.fst := by
  induction l with
  | nil => simp [insertA]
  | cons p rest ih =>
    obtain ⟨k', v'⟩ := p
    by_cases hk : k' = k
    · subst hk
      simp [insertA]
    · simp only [insertA, if_neg hk, List.map_cons, List.mem_cons, ih]
      tauto

lemma nodupKeys_insertA {K V : Type} [DecidableEq K] (k : K) (v : V)
    (l : List (K × V)) (h : NodupKeys l) : NodupKeys (insertA k v l) := by
  induction l with
  | nil => simp [insertA, NodupKeys]
  | cons p rest ih =>
    obtain ⟨k', v'⟩ := p
    simp only [NodupKeys, List.map_cons, List.nodup_cons] at h
    by_cases hk : k' = k
    · subst hk
      simpa [insertA, NodupKeys] using h
    · have hmem : k' ∉ (insertA k v rest).map Prod.fst := by
        rw [mem_keys_insertA]
        push_neg
        exact ⟨hk, h.1⟩
      simpa [insertA, hk, NodupKeys, List.nodup_cons, hmem] using ih h.2

lemma keys_eraseA_sublist {K V : Type} [DecidableEq K] (k : K) (l : List (K × V)) :
    ((eraseA k l).map Prod.fst).Sublist (l.map Prod.fst) := by
  induction l with
  | nil => simp [eraseA]
  | cons p rest ih =>
    obtain ⟨k', v'⟩ := p
    by_cases hk : k' = k
    · simp only [eraseA, if_pos hk, List.map_cons]
      exact (List.sublist_cons_self _ _)
    · simpa [eraseA, hk] using ih.cons₂ k'

lemma nodupKeys_eraseA {K V : Type} [DecidableEq K] (k : K) (l : List (K × V))
    (h : NodupKeys l) : NodupKeys (eraseA k l) :=
  (keys_eraseA_sublist k l).nodup h

/-- The set stored at a key of a set-valued index, `∅` when the key is
absent; membership in it is exactly "this routine is present in this
index under this key". -/
def valueAt (k : String) (m : List (String × Finset RoutineData)) : Finset RoutineData :=
  (lookupA k m).getD ∅

lemma valueAt_insertA_self (k : String) (v : Finset RoutineData)
    (m : List (String × Finset RoutineData)) : valueAt k (insertA k v m) = v := by
  simp [valueAt, lookupA_insertA_self]

lemma valueAt_insertA_ne {k k' : String} (v : Finset RoutineData)
    (m : List (String × Finset RoutineData)) (h : k' ≠ k) :
    valueAt k' (insertA k v m) = valueAt k' m := by
  simp [valueAt, lookupA_insertA_ne v m h]

lemma valueAt_eraseA_self (k : String) (m : List (String × Finset RoutineData))
    (h : NodupKeys m) : valueAt k (eraseA k m) = ∅ := by
  simp [valueAt, lookupA_eraseA_self k m h]

lemma valueAt_eraseA_ne {k k' : String} (m : List (String × Finset RoutineData))
    (h : k' ≠ k) : valueAt k' (eraseA k m) = valueAt k' m := by
  simp [valueAt, lookupA_eraseA_ne m h]

/-! ### Index-operation lemmas -/

lemma mem_valueAt_addToIndex_self (r : RoutineData)
    (m : List (String × Finset RoutineData)) (k : String) :
    r ∈ valueAt k (addToIndex r m k) := by
  unfold addToIndex
  cases h : lookupA k m <;> simp [valueAt_insertA_self]

lemma mem_valueAt_addToIndex_of_mem (r : RoutineData)
    (m : List (String × Finset RoutineData)) (k k₀ : String)
    (h : r ∈ valueAt k₀ m) : r ∈ valueAt k₀ (addToIndex r m k) := by
  unfold addToIndex
  by_cases hk : k₀ = k
  · subst hk
    cases hl : lookupA k₀ m <;> simp [valueAt_insertA_self]
  · cases hl : lookupA k m <;> simp [valueAt_insertA_ne _ _ hk, h]

lemma nodupKeys_addToIndex (r : RoutineData)
    (m : List (String × Finset RoutineData)) (k : String) (h : NodupKeys m) :
    NodupKeys (addToIndex r m k) := by
  unfold addToIndex
  cases lookupA k m <;> exact nodupKeys_insertA _ _ _ h

lemma nodupKeys_removeFromIndex (r : RoutineData)
    (m : List (String × Finset RoutineData)) (k : String) (h : NodupKeys m) :
    NodupKeys (removeFromIndex r m k) := by
  unfold removeFromIndex
  cases lookupA k m with
  | none => exact h
  | some rs =>
    by_cases he : rs.erase r = ∅ <;>
      simp [he, nodupKeys_eraseA _ _ h, nodupKeys_insertA _ _ _ h]

lemma not_mem_valueAt_removeFromIndex_self (r : RoutineData)
    (m : List (String × Finset RoutineData)) (k : String) (h : NodupKeys m) :
    r ∉ valueAt k (removeFromIndex r m k) := by
  unfold removeFromIndex
  cases hl : lookupA k m with
  | none => simp [valueAt, hl]
  | some rs =>
    by_cases he : rs.erase r = ∅
    · simp [he, valueAt_eraseA_self _ _ h]
    · simp [he, valueAt_insertA_self]

lemma not_mem_valueAt_removeFromIndex_of_not_mem (r : RoutineData)
    (m : List (String × Finset RoutineData)) (k k₀ : String) (hnd : NodupKeys m)
    (h : r ∉ valueAt k₀ m) : r ∉ valueAt k₀ (removeFromIndex r m k) := by
  unfold removeFromIndex
  cases hl : lookupA k m with
  | none => exact h
  | some rs =>
    by_cases hk : k₀ = k
    · subst hk
      by_cases he : rs.erase r = ∅
      · simp [he, valueAt_eraseA_self _ _ hnd]
      · simp [he, valueAt_insertA_self]
    · by_cases he : rs.erase r = ∅ <;>
        simp [he, valueAt_eraseA_ne _ hk, valueAt_insertA_ne _ _ hk, h]

lemma mem_valueAt_addToIndex_iff (r r' : RoutineData)
    (m : List (String × Finset RoutineData)) (k k₀ : String) (hne : r' ≠ r) :
    r' ∈ valueAt k₀ (addToIndex r m k) ↔ r' ∈ valueAt k₀ m := by
  unfold addToIndex
  by_cases hk : k₀ = k
  · subst hk
    cases hl : lookupA k₀ m with
    | none =>
      rw [valueAt_insertA_self]
      simp [valueAt, hl, hne]
    | some rs =>
      rw [valueAt_insertA_self]
      simp [valueAt, hl, Finset.mem_insert, hne]
  · cases hl : lookupA k m <;> simp [valueAt_insertA_ne _ _ hk]

lemma mem_valueAt_removeFromIndex_iff (r r' : RoutineData)
    (m : List (String × Finset RoutineData)) (k k₀ : String) (hne : r' ≠ r)
    (h : NodupKeys m) :
    r' ∈ valueAt k₀ (removeFromIndex r m k) ↔ r' ∈ valueAt k₀ m := by
  unfold removeFromIndex
  cases hl : lookupA k m with
  | none => rfl
  | some rs =>
    by_cases hk : k₀ = k
    · subst hk
      by_cases he : rs.erase r = ∅
      · have hval : valueAt k₀ m = rs := by simp [valueAt, hl]
        have hr' : r' ∉ rs := by
          intro hmem
          have : r' ∈ rs.erase r := Finset.mem_erase.2 ⟨hne, hmem⟩
          simp [he] at this
        simp [he, valueAt_eraseA_self _ _ h, hval, hr']
      · have hval : valueAt k₀ m = rs := by simp [valueAt, hl]
        simp [he, valueAt_insertA_self, hval, Finset.mem_erase, hne]
    · by_cases he : rs.erase r = ∅ <;>
        simp [he, valueAt_eraseA_ne _ hk, valueAt_insertA_ne _ _ hk]

/-! ### Category-loop lemmas -/

lemma foldl_addToIndex_mem_of_mem (r : RoutineData) (cats : List String)
    (m : List (String × Finset RoutineData)) (c₀ : String)
    (h : r ∈ valueAt c₀ m) : r ∈ valueAt c₀ (cats.foldl (addToIndex r) m) := by
  induction cats generalizing m with
  | nil => exact h
  | cons c rest ih => exact ih _ (mem_valueAt_addToIndex_of_mem r m c c₀ h)

lemma foldl_addToIndex_mem (r : RoutineData) (cats : List String)
    (m : List (String × Finset RoutineData)) (c : String) (hc : c ∈ cats) :
    r ∈ valueAt c (cats.foldl (addToIndex r) m) := by
  induction cats generalizing m with
  | nil => cases hc
  | cons c' rest ih =>
    rcases List.mem_cons.1 hc with h | h
    · subst h
      exact foldl_addToIndex_mem_of_mem r rest _ c (mem_valueAt_addToIndex_self r m c)
    · exact ih _ h

lemma foldl_addToIndex_nodup (r : RoutineData) (cats : List String)
    (m : List (String × Finset RoutineData)) (h : NodupKeys m) :
    NodupKeys (cats.foldl (addToIndex r) m) := by
  induction cats generalizing m with
  | nil => exact h
  | cons c rest ih => exact ih _ (nodupKeys_addToIndex r m c h)

lemma foldl_removeFromIndex_nodup (r : RoutineData) (cats : List String)
    (m : List (String × Finset RoutineData)) (h : NodupKeys m) :
    NodupKeys (cats.foldl (removeFromIndex r) m) := by
  induction cats generalizing m with
  | nil => exact h
  | cons c rest ih => exact ih _ (nodupKeys_removeFromIndex r m c h)

lemma foldl_removeFromIndex_not_mem_of_not_mem (r : RoutineData) (cats : List String)
    (m : List (String × Finset RoutineData)) (c₀ : String) (hnd : NodupKeys m)
    (h : r ∉ valueAt c₀ m) : r ∉ valueAt c₀ (cats.foldl (removeFromIndex r) m) := by
  induction cats generalizing m with
  | nil => exact h
  | cons c rest ih =>
    exact ih _ (nodupKeys_removeFromIndex r m c hnd)
      (not_mem_valueAt_removeFromIndex_of_not_mem r m c c₀ hnd h)

lemma foldl_removeFromIndex_not_mem (r : RoutineData) (cats : List String)
    (m : List (String × Finset RoutineData)) (c : String) (hnd : NodupKeys m)
    (hc : c ∈ cats) : r ∉ valueAt c (cats.foldl (removeFromIndex r) m) := by
  induction cats generalizing m with
  | nil => cases hc
  | cons c' rest ih =>
    rcases List.mem_cons.1 hc with h | h
    · subst h
      exact foldl_removeFromIndex_not_mem_of_not_mem r rest _ c
        (nodupKeys_removeFromIndex r m c hnd)
        (not_mem_valueAt_removeFromIndex_self r m c hnd)
    · exact ih _ (nodupKeys_removeFromIndex r m c' hnd) h

lemma foldl_addToIndex_frame (r r' : RoutineData) (cats : List String)
    (m : List (String × Finset RoutineData)) (k : String) (hne : r' ≠ r) :
    r' ∈ valueAt k (cats.foldl (addToIndex r) m) ↔ r' ∈ valueAt k m := by
  induction cats generalizing m with
  | nil => exact Iff.rfl
  | cons c rest ih =>
    exact (ih _).trans (mem_valueAt_addToIndex_iff r r' m c k hne)

lemma foldl_removeFromIndex_frame (r r' : RoutineData) (cats : List String)
    (m : List (String × Finset RoutineData)) (k : String) (hne : r' ≠ r)
    (hnd : NodupKeys m) :
    r' ∈ valueAt k (cats.foldl (removeFromIndex r) m) ↔ r' ∈ valueAt k m := by
  induction cats generalizing m with
  | nil => exact Iff.rfl
  | cons c rest ih =>
    exact (ih _ (nodupKeys_removeFromIndex r m c hnd)).trans
      (mem_valueAt_removeFromIndex_iff r r' m c k hne hnd)

lemma lookupA_mem_pair {K V : Type} [DecidableEq K] {k : K} {v : V}
    {l : List (K × V)} (h : lookupA k l = some v) : (k, v) ∈ l := by
  induction l with
  | nil => simp [lookupA] at h
  | cons p rest ih =>
    obtain ⟨k', v'⟩ := p
    by_cases hk : k' = k
    · subst hk
      simp [lookupA] at h
      simp [h]
    · simp only [lookupA, if_neg hk] at h
      simp [ih h]

/-- A set-valued registry index in which, as `_register_routine` /
`_unregister_routine` maintain, no key is bound to an empty set (empty
entries are deleted on unregistration and keys are created only
together with a first member). -/
def SetIndexWF (m : List (String × Finset RoutineData)) : Prop :=
  ∀ p ∈ m, p.2 ≠ (∅ : Finset RoutineData)

/-! ### C7: the three selective cancellation operations -/

/-- C7: `cancel_by_id`, `cancel_by_name` and `cancel_category` return
`false` and leave the controller state exactly unchanged when the
target id / name / category has no registry entry, and when an entry
exists they return `true`, the entry is nonempty (at least one routine
matches), and every routine in it gets its cancellation flag set. -/
theorem cancel_ops_semantics (s : ControllerState)
    (hn : SetIndexWF s.nameToRoutines) (hc : SetIndexWF s.routineRegistry)
    (rid : ℕ) (n c : String) :
    (lookupA rid s.idToRoutine = none → cancelById rid s = (false, s)) ∧
    (∀ rd, lookupA rid s.idToRoutine = some rd →
      (cancelById rid s).1 = true ∧ rd.rid ∈ (cancelById rid s).2.cancelledSet) ∧
    (lookupA n s.nameToRoutines = none → cancelByName n s = (false, s)) ∧
    (∀ rs, lookupA n s.nameToRoutines = some rs →
      rs.Nonempty ∧ (cancelByName n s).1 = true ∧
      ∀ rd ∈ rs, rd.rid ∈ (cancelByName n s).2.cancelledSet) ∧
    (lookupA c s.routineRegistry = none → cancelCategory c s = (false, s)) ∧
    (∀ rs, lookupA c s.routineRegistry = some rs →
      rs.Nonempty ∧ (cancelCategory c s).1 = true ∧
      ∀ rd ∈ rs, rd.rid ∈ (cancelCategory c s).2.cancelledSet) := by
  refine ⟨fun h => ?_, fun rd h => ?_, fun h => ?_, fun rs h => ?_,
    fun h => ?_, fun rs h => ?_⟩
  · simp [cancelById, h]
  · refine ⟨by simp [cancelById, h], ?_⟩
    simp [cancelById, h, cancelRid]
  · simp [cancelByName, h]
  · refine ⟨?_, by simp [cancelByName, h], fun rd hrd => ?_⟩
    · exact Finset.nonempty_iff_ne_empty.2 (hn (n, rs) (lookupA_mem_pair h))
    · simp only [cancelByName, h, cancelEach]
      exact Finset.mem_union_right _ (Finset.mem_image_of_mem _ hrd)
  · simp [cancelCategory, h]
  · refine ⟨?_, by simp [cancelCategory, h], fun rd hrd => ?_⟩
    · exact Finset.nonempty_iff_ne_empty.2 (hc (c, rs) (lookupA_mem_pair h))
    · simp only [cancelCategory, h, cancelEach]
      exact Finset.mem_union_right _ (Finset.mem_image_of_mem _ hrd)

/-- Example routine: id 0, name `walk`, category `movement`. -/
def rEx : RoutineData := ⟨0, some "walk", ["movement"]⟩

/-- A second routine with a different identity. -/
def rEx2 : RoutineData := ⟨1, none, []⟩

/-- A controller state with `rEx` registered. -/
def stReg : ControllerState := registerRoutine rEx stEmpty

/-- A controller state with `rEx` registered, key `w` held, and the
left mouse button held. -/
def stFull : ControllerState :=
  { stReg with pressedKeys := {"w"}, pressedMouseButtons := {.left} }

/-- Witness for C7 at a state with one registered routine, probing the
registered name and an unregistered category. -/
theorem cancel_ops_semantics_witness :
    (SetIndexWF stReg.nameToRoutines ∧ SetIndexWF stReg.routineRegistry) ∧
    ((lookupA 5 stReg.idToRoutine = none → cancelById 5 stReg = (false, stReg)) ∧
     (∀ rd, lookupA 5 stReg.idToRoutine = some rd →
       (cancelById 5 stReg).1 = true ∧ rd.rid ∈ (cancelById 5 stReg).2.cancelledSet) ∧
     (lookupA "walk" stReg.nameToRoutines = none →
       cancelByName "walk" stReg = (false, stReg)) ∧
     (∀ rs, lookupA "walk" stReg.nameToRoutines = some rs →
       rs.Nonempty ∧ (cancelByName "walk" stReg).1 = true ∧
       ∀ rd ∈ rs, rd.rid ∈ (cancelByName "walk" stReg).2.cancelledSet) ∧
     (lookupA "combat" stReg.routineRegistry = none →
       cancelCategory "combat" stReg = (false, stReg)) ∧
     (∀ rs, lookupA "combat" stReg.routineRegistry = some rs →
       rs.Nonempty ∧ (cancelCategory "combat" stReg).1 = true ∧
       ∀ rd ∈ rs, rd.rid ∈ (cancelCategory "combat" stReg).2.cancelledSet)) := by
  have h1 : SetIndexWF stReg.nameToRoutines := by
    intro p hp
    simp [stReg, registerRoutine, rEx, stEmpty, RoutineData.nameKey, addToIndex,
      lookupA, insertA] at hp
    subst hp
    simp
  have h2 : SetIndexWF stReg.routineRegistry := by
    intro p hp
    simp [stReg, registerRoutine, rEx, stEmpty, RoutineData.nameKey, addToIndex,
      lookupA, insertA] at hp
    subst hp
    simp
  exact ⟨⟨h1, h2⟩, cancel_ops_semantics stReg h1 h2 5 "walk" "combat"⟩

/-! ### C9: register/unregister update all three indices in lockstep -/

/-- C9: after `_register_routine(r)` the routine is stored under its id,
is in its name's set when it has a (truthy) name, and is in the set of
each of its categories; after `_unregister_routine(r)` it is absent
from all three places; and neither call changes any other routine's
presence in any index, so no completed call leaves a routine present
in one index but absent from another. -/
theorem register_unregister_lockstep (r r' : RoutineData) (s : ControllerState)
    (hid : NodupKeys s.idToRoutine) (hname : NodupKeys s.nameToRoutines)
    (hcat : NodupKeys s.routineRegistry) :
    lookupA r.rid (registerRoutine r s).idToRoutine = some r ∧
    (∀ n, r.nameKey = some n → r ∈ valueAt n (registerRoutine r s).nameToRoutines) ∧
    (∀ c ∈ r.categories, r ∈ valueAt c (registerRoutine r s).routineRegistry) ∧
    lookupA r.rid (unregisterRoutine r s).idToRoutine = none ∧
    (∀ n, r.nameKey = some n → r ∉ valueAt n (unregisterRoutine r s).nameToRoutines) ∧
    (∀ c ∈ r.categories, r ∉ valueAt c (unregisterRoutine r s).routineRegistry) ∧
    (r'.rid ≠ r.rid →
      lookupA r'.rid (registerRoutine r s).idToRoutine = lookupA r'.rid s.idToRoutine ∧
      lookupA r'.rid (unregisterRoutine r s).idToRoutine = lookupA r'.rid s.idToRoutine) ∧
    (r' ≠ r →
      (∀ k, r' ∈ valueAt k (registerRoutine r s).nameToRoutines ↔
        r' ∈ valueAt k s.nameToRoutines) ∧
      (∀ k, r' ∈ valueAt k (unregisterRoutine r s).nameToRoutines ↔
        r' ∈ valueAt k s.nameToRoutines) ∧
      (∀ k, r' ∈ valueAt k (registerRoutine r s).routineRegistry ↔
        r' ∈ valueAt k s.routineRegistry) ∧
      (∀ k, r' ∈ valueAt k (unregisterRoutine r s).routineRegistry ↔
        r' ∈ valueAt k s.routineRegistry)) := by
  refine ⟨?_, fun n hn => ?_, fun c hc' => ?_, ?_, fun n hn => ?_, fun c hc' => ?_,
    fun hne => ⟨?_, ?_⟩, fun hne => ⟨fun k => ?_, fun k => ?_, fun k => ?_, fun k => ?_⟩⟩
  · simp only [registerRoutine]
    exact lookupA_insertA_self _ _ _
  · simp only [registerRoutine, hn]
    exact mem_valueAt_addToIndex_self r s.nameToRoutines n
  · simp only [registerRoutine]
    exact foldl_addToIndex_mem r r.categories s.routineRegistry c hc'
  · simp only [unregisterRoutine]
    exact lookupA_eraseA_self _ _ hid
  · simp only [unregisterRoutine, hn]
    exact not_mem_valueAt_removeFromIndex_self r s.nameToRoutines n hname
  · simp only [unregisterRoutine]
    exact foldl_removeFromIndex_not_mem r r.categories s.routineRegistry c hcat hc'
  · simp only [registerRoutine]
    exact lookupA_insertA_ne _ _ hne
  · simp only [unregisterRoutine]
    exact lookupA_eraseA_ne _ hne
  · simp only [registerRoutine]
    cases hn : r.nameKey with
    | none => exact Iff.rfl
    | some n => exact mem_valueAt_addToIndex_iff r r' s.nameToRoutines n k hne
  · simp only [unregisterRoutine]
    cases hn : r.nameKey with
    | none => exact Iff.rfl
    | some n => exact mem_valueAt_removeFromIndex_iff r r' s.nameToRoutines n k hne hname
  · simp only [registerRoutine]
    exact foldl_addToIndex_frame r r' r.categories s.routineRegistry k hne
  · simp only [unregisterRoutine]
    exact foldl_removeFromIndex_frame r r' r.categories s.routineRegistry k hne hcat

/-- Witness for C9 at routine `rEx`, bystander routine `rEx2`, and the
empty registry. -/
theorem register_unregister_lockstep_witness :
    (NodupKeys stEmpty.idToRoutine ∧ NodupKeys stEmpty.nameToRoutines ∧
      NodupKeys stEmpty.routineRegistry) ∧
    (lookupA rEx.rid (registerRoutine rEx stEmpty).idToRoutine = some rEx ∧
     (∀ n, rEx.nameKey = some n →
       rEx ∈ valueAt n (registerRoutine rEx stEmpty).nameToRoutines) ∧
     (∀ c ∈ rEx.categories,
       rEx ∈ valueAt c (registerRoutine rEx stEmpty).routineRegistry) ∧
     lookupA rEx.rid (unregisterRoutine rEx stEmpty).idToRoutine = none ∧
     (∀ n, rEx.nameKey = some n →
       rEx ∉ valueAt n (unregisterRoutine rEx stEmpty).nameToRoutines) ∧
     (∀ c ∈ rEx.categories,
       rEx ∉ valueAt c (unregisterRoutine rEx stEmpty).routineRegistry) ∧
     (rEx2.rid ≠ rEx.rid →
       lookupA rEx2.rid (registerRoutine rEx stEmpty).idToRoutine =
         lookupA rEx2.rid stEmpty.idToRoutine ∧
       lookupA rEx2.rid (unregisterRoutine rEx stEmpty).idToRoutine =
         lookupA rEx2.rid stEmpty.idToRoutine) ∧
     (rEx2 ≠ rEx →
       (∀ k, rEx2 ∈ valueAt k (registerRoutine rEx stEmpty).nameToRoutines ↔
         rEx2 ∈ valueAt k stEmpty.nameToRoutines) ∧
       (∀ k, rEx2 ∈ valueAt k (unregisterRoutine rEx stEmpty).nameToRoutines ↔
         rEx2 ∈ valueAt k stEmpty.nameToRoutines) ∧
       (∀ k, rEx2 ∈ valueAt k (registerRoutine rEx stEmpty).routineRegistry ↔
         rEx2 ∈ valueAt k stEmpty.routineRegistry) ∧
       (∀ k, rEx2 ∈ valueAt k (unregisterRoutine rEx stEmpty).routineRegistry ↔
         rEx2 ∈ valueAt k stEmpty.routineRegistry))) := by
  have h1 : NodupKeys stEmpty.idToRoutine := by simp [NodupKeys, stEmpty]
  have h2 : NodupKeys stEmpty.nameToRoutines := by simp [NodupKeys, stEmpty]
  have h3 : NodupKeys stEmpty.routineRegistry := by simp [NodupKeys, stEmpty]
  exact ⟨⟨h1, h2, h3⟩, register_unregister_lockstep rEx rEx2 stEmpty h1 h2 h3⟩

/-! ### C2: emergency stop -/

lemma emergencyReleaseKey_spec (o : DeviceOutcome) (k : String) (st : ControllerState) :
    (emergencyReleaseKey o k st).pressedKeys = st.pressedKeys.erase k ∧
    (emergencyReleaseKey o k st).pressedMouseButtons = st.pressedMouseButtons ∧
    (emergencyReleaseKey o k st).idToRoutine = st.idToRoutine ∧
    (emergencyReleaseKey o k st).cancelledSet = st.cancelledSet := by
  cases o <;>
    simp [emergencyReleaseKey, releaseKeySafely, executeKeyRelease, executeXdotool,
      Finset.erase_idem]

lemma emergencyReleaseMouse_spec (o : DeviceOutcome) (b : MouseButton)
    (st : ControllerState) :
    (emergencyReleaseMouse o b st).pressedMouseButtons =
      st.pressedMouseButtons.erase b ∧
    (emergencyReleaseMouse o b st).pressedKeys = st.pressedKeys ∧
    (emergencyReleaseMouse o b st).idToRoutine = st.idToRoutine ∧
    (emergencyReleaseMouse o b st).cancelledSet = st.cancelledSet := by
  cases o <;>
    simp [emergencyReleaseMouse, releaseMouseSafely, executeMouseRelease,
      executeXdotool, Finset.erase_idem]

lemma foldl_finset_erase_eq_empty {α : Type} [DecidableEq α] :
    ∀ (l : List α) (A : Finset α), (∀ a ∈ A, a ∈ l) → l.foldl Finset.erase A = ∅ := by
  intro l
  induction l with
  | nil =>
    intro A h
    exact Finset.eq_empty_of_forall_not_mem fun a ha => by simpa using h a ha
  | cons x rest ih =>
    intro A h
    simp only [List.foldl_cons]
    refine ih (A.erase x) fun a ha => ?_
    rcases Finset.mem_erase.1 ha with ⟨hax, haA⟩
    rcases List.mem_cons.1 (h a haA) with h' | h'
    · exact absurd h' hax
    · exact h'

lemma releaseKeys_foldl_spec (okey : String → DeviceOutcome) :
    ∀ (l : List String) (st : ControllerState),
    (l.foldl (fun st k => emergencyReleaseKey (okey k) k st) st).pressedKeys =
      l.foldl Finset.erase st.pressedKeys ∧
    (l.foldl (fun st k => emergencyReleaseKey (okey k) k st) st).pressedMouseButtons =
      st.pressedMouseButtons ∧
    (l.foldl (fun st k => emergencyReleaseKey (okey k) k st) st).idToRoutine =
      st.idToRoutine ∧
    (l.foldl (fun st k => emergencyReleaseKey (okey k) k st) st).cancelledSet =
      st.cancelledSet := by
  intro l
  induction l with
  | nil => intro st; exact ⟨rfl, rfl, rfl, rfl⟩
  | cons x rest ih =>
    intro st
    obtain ⟨h1, h2, h3, h4⟩ := emergencyReleaseKey_spec (okey x) x st
    obtain ⟨g1, g2, g3, g4⟩ := ih (emergencyReleaseKey (okey x) x st)
    exact ⟨by simp [g1, h1], by simp [g2, h2], by simp [g3, h3], by simp [g4, h4]⟩

lemma releaseMouse_foldl_spec (obtn : MouseButton → DeviceOutcome) :
    ∀ (l : List MouseButton) (st : ControllerState),
    (l.foldl (fun st b => emergencyReleaseMouse (obtn b) b st) st).pressedMouseButtons =
      l.foldl Finset.erase st.pressedMouseButtons ∧
    (l.foldl (fun st b => emergencyReleaseMouse (obtn b) b st) st).pressedKeys =
      st.pressedKeys ∧
    (l.foldl (fun st b => emergencyReleaseMouse (obtn b) b st) st).idToRoutine =
      st.idToRoutine ∧
    (l.foldl (fun st b => emergencyReleaseMouse (obtn b) b st) st).cancelledSet =
      st.cancelledSet := by
  intro l
  induction l with
  | nil => intro st; exact ⟨rfl, rfl, rfl, rfl⟩
  | cons x rest ih =>
    intro st
    obtain ⟨h1, h2, h3, h4⟩ := emergencyReleaseMouse_spec (obtn x) x st
    obtain ⟨g1, g2, g3, g4⟩ := ih (emergencyReleaseMouse (obtn x) x st)
    exact ⟨by simp [g1, h1], by simp [g2, h2], by simp [g3, h3], by simp [g4, h4]⟩

lemma releaseAllKeys_spec (okey : String → DeviceOutcome) (st : ControllerState) :
    (releaseAllKeys okey st).pressedKeys = ∅ ∧
    (releaseAllKeys okey st).pressedMouseButtons = st.pressedMouseButtons ∧
    (releaseAllKeys okey st).idToRoutine = st.idToRoutine ∧
    (releaseAllKeys okey st).cancelledSet = st.cancelledSet := by
  obtain ⟨h1, h2, h3, h4⟩ :=
    releaseKeys_foldl_spec okey (st.pressedKeys.sort (· ≤ ·)) st
  refine ⟨?_, h2, h3, h4⟩
  rw [releaseAllKeys] at *
  rw [h1]
  exact foldl_finset_erase_eq_empty _ _ fun a ha => (Finset.mem_sort _).2 ha

lemma releaseAllMouse_spec (obtn : MouseButton → DeviceOutcome) (st : ControllerState) :
    (releaseAllMouse obtn st).pressedMouseButtons = ∅ ∧
    (releaseAllMouse obtn st).pressedKeys = st.pressedKeys ∧
    (releaseAllMouse obtn st).idToRoutine = st.idToRoutine ∧
    (releaseAllMouse obtn st).cancelledSet = st.cancelledSet := by
  obtain ⟨h1, h2, h3, h4⟩ :=
    releaseMouse_foldl_spec obtn (allButtons.filter (· ∈ st.pressedMouseButtons)) st
  refine ⟨?_, h2, h3, h4⟩
  rw [releaseAllMouse] at *
  rw [h1]
  refine foldl_finset_erase_eq_empty _ _ fun b hb => ?_
  refine List.mem_filter.2 ⟨?_, by simpa using hb⟩
  cases b <;> simp [allButtons]

/-- C2: `emergency_stop` never raises (it is a total state
transformation for every device-outcome oracle), and afterwards the
held-key set and the held-mouse-button set are empty and every routine
registered at the moment of the call has its cancellation flag set —
for every initial state and regardless of whether each underlying
release succeeds, is rejected, or finds the driver unavailable. -/
theorem emergency_stop_clears_state (s : ControllerState)
    (okey : String → DeviceOutcome) (obtn : MouseButton → DeviceOutcome) :
    (emergencyStop okey obtn s).pressedKeys = ∅ ∧
    (emergencyStop okey obtn s).pressedMouseButtons = ∅ ∧
    ∀ p ∈ s.idToRoutine, p.2.rid ∈ (emergencyStop okey obtn s).cancelledSet := by
  obtain ⟨k1, k2, k3, k4⟩ := releaseAllKeys_spec okey (cancelAllRoutines s)
  obtain ⟨m1, m2, m3, m4⟩ :=
    releaseAllMouse_spec obtn (releaseAllKeys okey (cancelAllRoutines s))
  refine ⟨?_, ?_, fun p hp => ?_⟩
  · rw [emergencyStop, m2, k1]
  · rw [emergencyStop, m1]
  · rw [emergencyStop, m4, k4]
    simp only [cancelAllRoutines]
    refine Finset.mem_union_right _ (List.mem_toFinset.2 ?_)
    exact List.mem_map.2 ⟨p, hp, rfl⟩

/-- Witness for C2 at a state holding key `w`, the left mouse button,
and one registered routine, under an always-rejecting device. -/
theorem emergency_stop_clears_state_witness :
    (emergencyStop (fun _ => .rejected) (fun _ => .rejected) stFull).pressedKeys = ∅ ∧
    (emergencyStop (fun _ => .rejected) (fun _ => .rejected) stFull).pressedMouseButtons
      = ∅ ∧
    ∀ p ∈ stFull.idToRoutine,
      p.2.rid ∈
        (emergencyStop (fun _ => .rejected) (fun _ => .rejected) stFull).cancelledSet :=
  emergency_stop_clears_state stFull (fun _ => .rejected) (fun _ => .rejected)

/-! ### C8: Routine.run lifecycle -/

lemma runLoop_spec (rid : ℕ) : ∀ (seqs : List SeqExec) (s : ControllerState),
    ∃ k e, k ≤ seqs.length ∧
      runLoop rid seqs s = (applySeqs (seqs.take k) s, k, e) ∧
      (rid ∈ s.cancelledSet → k = 0) ∧
      (e = none → k < seqs.length → rid ∈ (applySeqs (seqs.take k) s).cancelledSet) ∧
      (∀ j, j < k → rid ∉ (applySeqs (seqs.take j) s).cancelledSet) := by
  intro seqs
  induction seqs with
  | nil =>
    intro s
    exact ⟨0, none, Nat.le_refl 0, rfl, fun _ => rfl,
      fun _ h => absurd h (by simp), fun j hj => absurd hj (by omega)⟩
  | cons f fs ih =>
    intro s
    by_cases hc : rid ∈ s.cancelledSet
    · refine ⟨0, none, Nat.zero_le _, ?_, fun _ => rfl,
        fun _ _ => by simpa [applySeqs] using hc, fun j hj => absurd hj (by omega)⟩
      simp [runLoop, hc, applySeqs]
    · cases hf : f s with
      | mk s' eo =>
        cases eo with
        | some e =>
          refine ⟨1, some e, by simp, ?_, fun h => absurd h hc, by simp,
            fun j hj => ?_⟩
          · simp [runLoop, hc, hf, applySeqs]
          · have hj0 : j = 0 := by omega
            subst hj0
            simpa [applySeqs] using hc
        | none =>
          obtain ⟨k, e, hk, heq, _, hcan, hflag⟩ := ih s'
          refine ⟨k + 1, e, by simpa using Nat.succ_le_succ hk, ?_,
            fun h => absurd h hc, fun he hlt => ?_, fun j hj => ?_⟩
          · simp [runLoop, hc, hf, heq, applySeqs]
          · have hlt' : k < fs.length := by simpa using hlt
            have := hcan he hlt'
            simpa [applySeqs, hf] using this
          · cases j with
            | zero => simpa [applySeqs] using hc
            | succ j' =>
              have := hflag j' (by omega)
              simpa [applySeqs, hf] using this

/-- C8: `Routine.run` first registers the routine, then executes a
prefix of its sequence list strictly in list order (the final state is
the in-order composition of exactly the first `k` sequence executions
applied to the registered state), checks the cancellation flag before
starting each sequence (the flag is unset at the entry of every
started sequence; if it is set at entry, zero sequences run; if the
loop stops early without an error, the flag was set at the stopping
boundary), and unregisters the routine on every exit path — the
returned state is `unregisterRoutine` applied to the loop's final
state whether the loop completed, was cancelled, or aborted on a
propagated error. -/
theorem routine_run_lifecycle (r : RoutineData) (seqs : List SeqExec)
    (s : ControllerState) :
    ∃ k e, k ≤ seqs.length ∧
      runRoutine r seqs s =
        (unregisterRoutine r (applySeqs (seqs.take k) (registerRoutine r s)), k, e) ∧
      (r.rid ∈ (registerRoutine r s).cancelledSet → k = 0) ∧
      (e = none → k < seqs.length →
        r.rid ∈ (applySeqs (seqs.take k) (registerRoutine r s)).cancelledSet) ∧
      (∀ j, j < k →
        r.rid ∉ (applySeqs (seqs.take j) (registerRoutine r s)).cancelledSet) := by
  obtain ⟨k, e, hk, heq, hstart, hcan, hflag⟩ := runLoop_spec r.rid seqs (registerRoutine r s)
  exact ⟨k, e, hk, by simp [runRoutine, heq], hstart, hcan, hflag⟩

/-- A sequence execution that succeeds without touching the state. -/
def seqNoop : SeqExec := fun s => (s, none)

/-- A sequence execution that raises a `KeyboardError`. -/
def seqFail : SeqExec := fun s => (s, some .keyboardError)

/-- Witness for C8 on a two-sequence routine whose second sequence
raises. -/
theorem routine_run_lifecycle_witness :
    ∃ k e, k ≤ [seqNoop, seqFail].length ∧
      runRoutine rEx [seqNoop, seqFail] stEmpty =
        (unregisterRoutine rEx
          (applySeqs ([seqNoop, seqFail].take k) (registerRoutine rEx stEmpty)), k, e) ∧
      (rEx.rid ∈ (registerRoutine rEx stEmpty).cancelledSet → k = 0) ∧
      (e = none → k < [seqNoop, seqFail].length →
        rEx.rid ∈
          (applySeqs ([seqNoop, seqFail].take k)
            (registerRoutine rEx stEmpty)).cancelledSet) ∧
      (∀ j, j < k →
        rEx.rid ∉
          (applySeqs ([seqNoop, seqFail].take j)
            (registerRoutine rEx stEmpty)).cancelledSet) :=
  routine_run_lifecycle rEx [seqNoop, seqFail] stEmpty

/-! ### C1: the half-sine turn decomposition -/

lemma sum_sin_le :
    (∑ i ∈ Finset.range 60, Real.sin (((i : ℝ) / 60) * Real.pi)) ≤ 59 := by
  rw [Finset.sum_range_succ']
  have h0 : Real.sin ((((0 : ℕ) : ℝ) / 60) * Real.pi) = 0 := by norm_num
  rw [h0, add_zero]
  calc (∑ i ∈ Finset.range 59, Real.sin ((((i + 1 : ℕ) : ℝ) / 60) * Real.pi))
      ≤ ∑ _i ∈ Finset.range 59, (1 : ℝ) :=
        Finset.sum_le_sum fun i _ => Real.sin_le_one _
    _ = 59 := by simp

lemma turnDelta_sum_lt (T : ℝ) (hT : 0 < T) :
    (∑ i ∈ Finset.range 60, turnDelta T 60 i) < T := by
  have hamp : (0 : ℝ) < T / 60 := by positivity
  have hcast : ((60 : ℕ) : ℝ) = (60 : ℝ) := by norm_num
  calc (∑ i ∈ Finset.range 60, turnDelta T 60 i)
      = (T / 60) * ∑ i ∈ Finset.range 60, Real.sin (((i : ℝ) / 60) * Real.pi) := by
        rw [Finset.mul_sum]
        refine Finset.sum_congr rfl fun i _ => ?_
        simp [turnDelta, hcast]
    _ ≤ (T / 60) * 59 := mul_le_mul_of_nonneg_left sum_sin_le hamp.le
    _ < (T / 60) * 60 := by
        have h59 : (59 : ℝ) < 60 := by norm_num
        exact mul_lt_mul_of_pos_left h59 hamp
    _ = T := by field_simp

lemma turnDelta_zero (T : ℝ) : turnDelta T 60 0 = 0 := by
  simp [turnDelta]

lemma turnDelta_last_pos (T : ℝ) (hT : 0 < T) : 0 < turnDelta T 60 59 := by
  have hcast : ((60 : ℕ) : ℝ) = (60 : ℝ) := by norm_num
  have hamp : (0 : ℝ) < T / ((60 : ℕ) : ℝ) := by rw [hcast]; positivity
  refine mul_pos hamp (Real.sin_pos_of_pos_of_lt_pi ?_ ?_)
  · have hq : (0 : ℝ) < ((59 : ℕ) : ℝ) / ((60 : ℕ) : ℝ) := by norm_num
    exact mul_pos hq Real.pi_pos
  · have h1 : ((59 : ℕ) : ℝ) / ((60 : ℕ) : ℝ) < 1 := by norm_num
    calc ((59 : ℕ) : ℝ) / ((60 : ℕ) : ℝ) * Real.pi
        < 1 * Real.pi := mul_lt_mul_of_pos_right h1 Real.pi_pos
      _ = Real.pi := one_mul _

lemma turnDelta_le_mid (T : ℝ) (hT : 0 ≤ T) (i : ℕ) :
    turnDelta T 60 i ≤ turnDelta T 60 30 := by
  have hcast : ((60 : ℕ) : ℝ) = (60 : ℝ) := by norm_num
  have hmid : turnDelta T 60 30 = T / 60 := by
    have harg : ((30 : ℝ) / 60) * Real.pi = Real.pi / 2 := by ring
    simp only [turnDelta]
    push_cast
    rw [harg, Real.sin_pi_div_two, mul_one]
  rw [hmid]
  have hamp : (0 : ℝ) ≤ T / 60 := by positivity
  calc turnDelta T 60 i ≤ (T / ((60 : ℕ) : ℝ)) * 1 :=
        mul_le_mul_of_nonneg_left (Real.sin_le_one _) (by rw [hcast]; exact hamp)
    _ = T / 60 := by rw [hcast, mul_one]

/-- A configuration with `pixels_per_degree = 1` and
`steps_per_second = 60`. -/
noncomputable def cfgUnit : ControllerConfig := ⟨⟨1, 60⟩, fun _ => 1⟩

/-- C1 counterexample, at `pixels_per_degree = 1` and
`steps_per_second = 60`: the turn does decompose into
`int(1.0 × 60) = 60` steps, but the last step's pixel delta is
strictly positive — not of magnitude 0 as claimed — and the 60 deltas
sum to strictly less than `90 × pixels_per_degree = 90` (the
unnormalized half-sine envelope loses a factor of about `2/π`), which
is outside any floating-point tolerance. -/
theorem turn_halfsine_claim_fails :
    turnSteps cfgUnit 1 = 60 ∧
    0 < turnDelta 90 60 59 ∧
    (∑ i ∈ Finset.range 60, turnDelta 90 60 i) < 90 := by
  refine ⟨?_, turnDelta_last_pos 90 (by norm_num), turnDelta_sum_lt 90 (by norm_num)⟩
  have h : (pyInt (60 : ℝ)).toNat = 60 := by
    norm_num [pyInt]
    decide
  simp [turnSteps, cfgUnit, h]

/-- C1 amended: under `steps_per_second = 60` and any
`pixels_per_degree > 0`, `turn(degrees=90, duration=1.0)` decomposes
into exactly 60 steps whose step-`i` delta is
`(total_pixels / 60) × sin(π i / 60)`; the delta is 0 at the first
step, strictly positive (nonzero) at the last step, maximal at the
midpoint step 30, and the deltas sum to strictly less than
`90 × pixels_per_degree` rather than to it. -/
theorem turn_halfsine_decomposition (ppd : ℝ) (hppd : 0 < ppd) :
    turnSteps ⟨⟨ppd, 60⟩, fun _ => 1⟩ 1 = 60 ∧
    turnDelta (90 * ppd) 60 0 = 0 ∧
    0 < turnDelta (90 * ppd) 60 59 ∧
    (∀ i, turnDelta (90 * ppd) 60 i ≤ turnDelta (90 * ppd) 60 30) ∧
    (∑ i ∈ Finset.range 60, turnDelta (90 * ppd) 60 i) < 90 * ppd := by
  have hT : (0 : ℝ) < 90 * ppd := by positivity
  refine ⟨?_, turnDelta_zero _, turnDelta_last_pos _ hT,
    fun i => turnDelta_le_mid _ hT.le i, turnDelta_sum_lt _ hT⟩
  have h : (pyInt (60 : ℝ)).toNat = 60 := by
    norm_num [pyInt]
    decide
  simp [turnSteps, h]

/-- Witness for the amended C1 at `pixels_per_degree = 1`. -/
theorem turn_halfsine_decomposition_witness :
    (0 : ℝ) < 1 ∧
    (turnSteps ⟨⟨1, 60⟩, fun _ => 1⟩ 1 = 60 ∧
     turnDelta (90 * 1) 60 0 = 0 ∧
     0 < turnDelta (90 * 1) 60 59 ∧
     (∀ i, turnDelta (90 * 1) 60 i ≤ turnDelta (90 * 1) 60 30) ∧
     (∑ i ∈ Finset.range 60, turnDelta (90 * 1) 60 i) < 90 * 1) :=
  ⟨one_pos, turn_halfsine_decomposition 1 one_pos⟩

end DsMacro
